import Mathlib

/-!
The polling loop and the host gauge of pingz.

A shallow embedding of `main.go`.  The process state is passed explicitly: the
gauge vector `hostUp`, the log, the HTTP requests issued and the durations
handed to `time.Sleep`.  A Go `string` is a sequence of bytes.  What the
program obtains from outside (the result of `http.Get`, the clock, the
duration, URI and YAML parsers of the libraries) is a parameter of the
definitions.  A run of the loop body either completes or is ended by the panic
of `WithLabelValues` on a label value that is not valid UTF-8.
-/

namespace Pingz

/-! ## Go strings -/

/-- A Go `string`: a sequence of bytes (numbers below 256), which need not be
valid UTF-8. -/
abbrev GoString := List Nat

/-- UTF-8 encoding of one code point. -/
def utf8Encode (c : Nat) : List Nat :=
  if c < 0x80 then [c]
  else if c < 0x800 then [0xC0 + c / 64, 0x80 + c % 64]
  else if c < 0x10000 then [0xE0 + c / 4096, 0x80 + c / 64 % 64, 0x80 + c % 64]
  else [0xF0 + c / 262144, 0x80 + c / 4096 % 64, 0x80 + c / 64 % 64, 0x80 + c % 64]

/-- The Go string of a text: its UTF-8 bytes. -/
def goString (t : String) : GoString := (t.data.map (fun c => utf8Encode c.toNat)).flatten

/-- Scan of `utf8.ValidString`: `pending` continuation bytes are still due and
the next of them must lie in `lo..hi`; the ranges allowed after each first byte
are those of the Go library (no overlong forms, no surrogates, nothing above
U+10FFFF). -/
def validUTF8Aux : Nat → Nat → Nat → List Nat → Bool
  | 0, _, _, [] => true
  | _ + 1, _, _, [] => false
  | 0, _, _, b :: rest =>
    if b < 0x80 then validUTF8Aux 0 0x80 0xBF rest
    else if 0xC2 ≤ b ∧ b ≤ 0xDF then validUTF8Aux 1 0x80 0xBF rest
    else if b = 0xE0 then validUTF8Aux 2 0xA0 0xBF rest
    else if b = 0xED then validUTF8Aux 2 0x80 0x9F rest
    else if 0xE1 ≤ b ∧ b ≤ 0xEF then validUTF8Aux 2 0x80 0xBF rest
    else if b = 0xF0 then validUTF8Aux 3 0x90 0xBF rest
    else if 0xF1 ≤ b ∧ b ≤ 0xF3 then validUTF8Aux 3 0x80 0xBF rest
    else if b = 0xF4 then validUTF8Aux 3 0x80 0x8F rest
    else false
  | k + 1, lo, hi, b :: rest =>
    if lo ≤ b ∧ b ≤ hi then validUTF8Aux k 0x80 0xBF rest else false

/-- Go `utf8.ValidString`, the test `WithLabelValues` applies to a label value. -/
def validUTF8 (t : GoString) : Bool := validUTF8Aux 0 0x80 0xBF t

/-! ## Data model -/

/-- Go `type Host struct`. -/
structure Host where
  Name : GoString
  Url : GoString
deriving DecidableEq, Repr

/-- Go `type Config struct`; `Port` is an `int64`. -/
structure Config where
  Port : Int
  Frequency : GoString
  Hosts : List Host
deriving DecidableEq, Repr

/-- Go `NewConfig`: port 3000, frequency one second, no hosts. -/
def NewConfig : Config := Config.mk 3000 (goString "1s") []

/-- Result of `http.Get`: either a non-nil transport error with its message,
or a response carrying a status code. -/
inductive GetResult where
  | transportError (msg : GoString)
  | response (StatusCode : Int)
deriving DecidableEq, Repr

/-- Levels of the logrus calls made by the program. -/
inductive Level where
  | trace
  | info
  | warn
  | fatal
deriving DecidableEq, Repr

/-- One logged record: level and formatted message. -/
structure LogEntry where
  level : Level
  msg : GoString
deriving DecidableEq, Repr

/-- Value of a gauge.  The program only stores the constants `1.0` and `0.0`. -/
abbrev GaugeValue := Rat

/-- The gauge vector `hostUp`: the gauge stored under each value of the label
`host`, `none` when no gauge was created for it. -/
abbrev GaugeVec := GoString → Option GaugeValue

/-- The call `vec.WithLabelValues(name).Set(v)`.  `WithLabelValues` panics when
`name` is not valid UTF-8, which is the result `none`; otherwise the gauge
under `name` is created when absent and set to `v`, and every other label is
untouched. -/
def GaugeVec.withLabelValuesSet (vec : GaugeVec) (name : GoString) (v : GaugeValue) :
    Option GaugeVec :=
  if validUTF8 name = true then some (fun n => if n = name then some v else vec n)
  else none

/-- State of the process that the poller reads and writes. -/
structure ProcState where
  hostUp : GaugeVec
  log : List LogEntry
  requests : List GoString
  sleeps : List Int

/-- State at process start: the gauge vector has no entry, nothing was logged,
requested or slept. -/
def ProcState.init : ProcState := ProcState.mk (fun _ => none) [] [] []

/-- Append a record to the log. -/
def ProcState.emit (s : ProcState) (level : Level) (msg : GoString) : ProcState :=
  { s with log := s.log ++ [LogEntry.mk level msg] }

/-! ## Host.ping -/

/-- The text of the error `ping` builds for a response whose status is not 200. -/
def notOkMessage : GoString := goString "response code was not '200'"

/-- Go `func (h *Host) ping() error`.  `httpGet` gives the result of
`http.Get`; the returned error is `none` for `nil` and `some` of the error
text otherwise.  The GET issued is recorded in `requests`. -/
def Host.ping (h : Host) (httpGet : GoString → GetResult) (s : ProcState) :
    Option GoString × ProcState :=
  let s1 := { s with requests := s.requests ++ [h.Url] }
  match httpGet h.Url with
  | GetResult.transportError err => (some err, s1)
  | GetResult.response statusCode =>
    if statusCode ≠ 200 then (some notOkMessage, s1) else (none, s1)

/-! ## pingLoop -/

/-- Go verb `%t`. -/
def fmtBool (b : Bool) : GoString := if b then goString "true" else goString "false"

/-- The message of `log.Warnf("ping: name=%s url=%s isUp=%t err=%s", ...)`. -/
def warnMessage (host : Host) (isUp : Bool) (err : GoString) : GoString :=
  goString "ping: name=" ++ host.Name ++ goString " url=" ++ host.Url ++ goString " isUp="
    ++ fmtBool isUp ++ goString " err=" ++ err

/-- How a run of the loop body ends: it completes, or the process is ended by
a panic; either way with the state reached. -/
inductive CycleResult where
  | completed (s : ProcState)
  | panicked (s : ProcState)

/-- Body of the inner `for _, host := range config.Hosts` of `pingLoop`.  In
either branch `hostUp.WithLabelValues(host.Name)` may panic, before anything is
set or logged.  In the branch that warns, `err` is not `nil` and `%s` prints
its text. -/
def pollHost (httpGet : GoString → GetResult) (host : Host) (s : ProcState) : CycleResult :=
  match host.ping httpGet s with
  | (err, s1) =>
    let isUp := err.isNone
    if isUp then
      match s1.hostUp.withLabelValuesSet host.Name 1 with
      | none => CycleResult.panicked s1
      | some vec => CycleResult.completed { s1 with hostUp := vec }
    else
      match s1.hostUp.withLabelValuesSet host.Name 0 with
      | none => CycleResult.panicked s1
      | some vec =>
        CycleResult.completed
          (ProcState.emit { s1 with hostUp := vec } Level.warn
            (warnMessage host isUp (err.getD [])))

/-- The inner loop of `pingLoop` over the hosts that remain, the next one
being the `i`-th of the cycle; `httpGet i` is what `http.Get` answers to the
`i`-th check of the cycle.  A panic ends the loop. -/
def pollHosts (httpGet : Nat → GoString → GetResult) :
    Nat → List Host → ProcState → CycleResult
  | _, [], s => CycleResult.completed s
  | i, host :: rest, s =>
    match pollHost (httpGet i) host s with
    | CycleResult.completed s1 => pollHosts httpGet (i + 1) rest s1
    | CycleResult.panicked s1 => CycleResult.panicked s1

/-- Two's complement wrap of a 64-bit signed integer (`time.Duration` is an
`int64`). -/
def wrapInt64 (x : Int) : Int := (x + 2 ^ 63) % 2 ^ 64 - 2 ^ 63

/-- `time.Sleep(d)` of the Go library: the pause requested of the runtime is
`d`, and a negative or zero `d` returns immediately. -/
def sleepDelay (d : Int) : Int := if d ≤ 0 then 0 else d

/-- One iteration of the outer `for` of `pingLoop`: all hosts are checked, then
`frequency - diff` (an `int64` subtraction) is passed to `time.Sleep`, where
`diff = end.Sub(start)` is the measured duration of the checks. -/
def pollCycle (frequency : Int) (httpGet : Nat → GoString → GetResult) (diff : Int)
    (config : Config) (s : ProcState) : CycleResult :=
  match pollHosts httpGet 0 config.Hosts s with
  | CycleResult.completed s1 =>
    CycleResult.completed { s1 with sleeps := s1.sleeps ++ [wrapInt64 (frequency - diff)] }
  | CycleResult.panicked s1 => CycleResult.panicked s1

/-- What the process meets from outside while polling: the answer of
`http.Get` to the `i`-th check of cycle `k`, and the duration `end.Sub(start)`
measured in cycle `k` (nanoseconds, an `int64`). -/
structure World where
  httpGet : Nat → Nat → GoString → GetResult
  elapsed : Nat → Int

/-- The first `n` iterations of the outer `for` of `pingLoop`. -/
def loopCycles (frequency : Int) (config : Config) (w : World) :
    Nat → ProcState → CycleResult
  | 0, s => CycleResult.completed s
  | n + 1, s =>
    match loopCycles frequency config w n s with
    | CycleResult.completed s1 =>
      pollCycle frequency (w.httpGet n) (w.elapsed n) config s1
    | CycleResult.panicked s1 => CycleResult.panicked s1

/-- Where `pingLoop` stands: the process was ended by `log.Fatalf`, or by a
panic inside the loop, or the loop is running and has completed some
iterations. -/
inductive LoopResult where
  | fatal (s : ProcState)
  | panicked (s : ProcState)
  | running (s : ProcState)

/-- Go `pingLoop`, observed after `n` iterations of its endless loop.
`parseDuration` is `time.ParseDuration`. -/
def pingLoop (parseDuration : GoString → Except GoString Int) (config : Config) (w : World)
    (n : Nat) (s : ProcState) : LoopResult :=
  match parseDuration config.Frequency with
  | Except.error err =>
    LoopResult.fatal (s.emit Level.fatal (goString "Failed to parse frequency: " ++ err))
  | Except.ok frequency =>
    match loopCycles frequency config w n
        (s.emit Level.info (goString "Pinging every " ++ config.Frequency)) with
    | CycleResult.completed s1 => LoopResult.running s1
    | CycleResult.panicked s1 => LoopResult.panicked s1

/-! ## readConfig -/

/-- How `readConfig` ends: it returns a config with an error (`none` for
`nil`), or the process is ended by `log.Fatalf` with a message. -/
inductive ReadResult where
  | returned (config : Config) (err : Option GoString)
  | fatal (msg : GoString)
deriving DecidableEq, Repr

/-- The loop of `readConfig` over the hosts: the first host whose url
`url.ParseRequestURI` rejects ends the process. -/
def checkHosts (parseRequestURI : GoString → Except GoString Unit) :
    List Host → Option GoString
  | [] => none
  | host :: rest =>
    match parseRequestURI host.Url with
    | Except.error err =>
      some (goString "Invalid URL: name=" ++ host.Name ++ goString " url=" ++ host.Url
        ++ goString " err=" ++ err)
    | Except.ok _ => checkHosts parseRequestURI rest

/-- Go `readConfig`.  `readFile` is `os.ReadFile`, `yamlUnmarshal` is
`yaml.Unmarshal` (it fills the config it is given and may return an error),
`parseRequestURI` is `url.ParseRequestURI`.  The result tells how the function
ends; the trace record written before the file is read is left out. -/
def readConfig (readFile : GoString → Except GoString GoString)
    (yamlUnmarshal : GoString → Config → Config × Option GoString)
    (parseRequestURI : GoString → Except GoString Unit) (path : GoString) : ReadResult :=
  let config := NewConfig
  match readFile path with
  | Except.error err => ReadResult.returned config (some err)
  | Except.ok dat =>
    match yamlUnmarshal dat config with
    | (config, some err) => ReadResult.returned config (some err)
    | (config, none) =>
      match checkHosts parseRequestURI config.Hosts with
      | some msg => ReadResult.fatal msg
      | none => ReadResult.returned config none

/-! ## Records and scenarios used in the statements -/

/-- The gauge value the inner loop stores for an answer of `http.Get`. -/
def gaugeOf (r : GetResult) : GaugeValue := if r = GetResult.response 200 then 1 else 0

/-- The failure detail a warning carries: the message of a transport error, and
for a response the fixed text of the error `ping` builds. -/
def failureDetail : GetResult → GoString
  | GetResult.transportError msg => msg
  | GetResult.response _ => notOkMessage

/-- The record a check leaves in the log: none for a response with status 200,
otherwise a warning with the name, the url and the failure detail. -/
def diagnostic (host : Host) (r : GetResult) : Option LogEntry :=
  if r = GetResult.response 200 then none
  else some (LogEntry.mk Level.warn (warnMessage host false (failureDetail r)))

/-- Used in proofs: the state one check leaves when `WithLabelValues` does not
panic. -/
def afterCheck (g : GoString → GetResult) (h : Host) (s : ProcState) : ProcState :=
  ProcState.mk (fun n => if n = h.Name then some (gaugeOf (g h.Url)) else s.hostUp n)
    (s.log ++ (diagnostic h (g h.Url)).toList) (s.requests ++ [h.Url]) s.sleeps

/-- Used in proofs: the state the inner loop leaves when no call panics. -/
def afterChecks (g : Nat → GoString → GetResult) : Nat → List Host → ProcState → ProcState
  | _, [], s => s
  | i, h :: rest, s => afterChecks g (i + 1) rest (afterCheck (g i) h s)

/-- Scenario: host `a` answers 200, host `b` refuses the connection. -/
def scenarioConfig : Config :=
  Config.mk 3000 (goString "1s")
    [Host.mk (goString "a") (goString "http://ok.test"),
     Host.mk (goString "b") (goString "http://down.test")]

/-- Answers of the network in the scenario. -/
def scenarioGet : Nat → GoString → GetResult :=
  fun _ url =>
    if url = goString "http://ok.test" then GetResult.response 200
    else GetResult.transportError (goString "connection refused")

/-- Answers of the network once every host answers 200. -/
def recoveredGet : Nat → GoString → GetResult := fun _ _ => GetResult.response 200

/-- The scenario with the check of index 1 answered by a 200. -/
def flippedGet : Nat → GoString → GetResult :=
  fun k url => if k = 1 then GetResult.response 200 else scenarioGet k url

/-- A config listing the name `x` twice. -/
def twiceConfig : Config :=
  Config.mk 3000 (goString "1s")
    [Host.mk (goString "x") (goString "http://one.test"),
     Host.mk (goString "x") (goString "http://two.test")]

/-- Only `http://two.test` answers 200. -/
def secondUpGet : Nat → GoString → GetResult :=
  fun _ url =>
    if url = goString "http://two.test" then GetResult.response 200
    else GetResult.response 503

/-- Only `http://one.test` answers 200. -/
def firstUpGet : Nat → GoString → GetResult :=
  fun _ url =>
    if url = goString "http://one.test" then GetResult.response 200
    else GetResult.response 503

/-- A config with one host. -/
def singleConfig : Config :=
  Config.mk 3000 (goString "1s") [Host.mk (goString "a") (goString "http://a.test")]

/-- A config whose first host has the one-byte name `0xFF`, which is not valid
UTF-8. -/
def badNameConfig : Config :=
  Config.mk 3000 (goString "1s")
    [Host.mk [0xFF] (goString "http://ok.test"),
     Host.mk (goString "b") (goString "http://down.test")]

/-- A duration parser that knows one text. -/
def demoParseDuration : GoString → Except GoString Int :=
  fun t =>
    if t = goString "1s" then Except.ok 1000000000
    else Except.error (goString "time: invalid duration")

/-- A file system holding one config file. -/
def demoReadFile : GoString → Except GoString GoString :=
  fun path =>
    if path = goString "./config.yaml" then Except.ok (goString "hosts")
    else Except.error (goString "no such file")

/-- A YAML decoder that fills in two hosts, the second with a bad url. -/
def demoUnmarshal : GoString → Config → Config × Option GoString :=
  fun _ c =>
    (Config.mk c.Port c.Frequency
      [Host.mk (goString "a") (goString "http://ok.test"),
       Host.mk (goString "b") (goString "not a url")], none)

/-- A URI check that rejects one text. -/
def demoParseRequestURI : GoString → Except GoString Unit :=
  fun u =>
    if u = goString "not a url" then Except.error (goString "invalid URI for request")
    else Except.ok ()

/-! ## Effect of one check on the state -/

theorem ping_snd (h : Host) (g : GoString → GetResult) (s : ProcState) :
    (h.ping g s).2 = { s with requests := s.requests ++ [h.Url] } := by
  unfold Host.ping
  cases hr : g h.Url with
  | transportError msg => rfl
  | response code =>
    by_cases hc : code = 200
    · simp [hc]
    · simp [hc]

theorem ping_fst_isNone (h : Host) (g : GoString → GetResult) (s : ProcState) :
    (h.ping g s).1.isNone = decide (g h.Url = GetResult.response 200) := by
  unfold Host.ping
  cases hr : g h.Url with
  | transportError msg => simp
  | response code =>
    by_cases hc : code = 200
    · simp [hc]
    · simp [hc]

/-- One check: it completes in `afterCheck` when the name is valid UTF-8, and
panics right after the GET otherwise. -/
theorem pollHost_eq (g : GoString → GetResult) (h : Host) (s : ProcState) :
    pollHost g h s =
      if validUTF8 h.Name = true then CycleResult.completed (afterCheck g h s)
      else CycleResult.panicked
        (ProcState.mk s.hostUp s.log (s.requests ++ [h.Url]) s.sleeps) := by
  unfold pollHost Host.ping afterCheck
  cases hr : g h.Url with
  | transportError msg =>
    by_cases hv : validUTF8 h.Name = true
    · simp [hv, GaugeVec.withLabelValuesSet, gaugeOf, diagnostic, failureDetail,
        ProcState.emit]
    · simp [hv, GaugeVec.withLabelValuesSet]
  | response code =>
    by_cases hc : code = 200
    · by_cases hv : validUTF8 h.Name = true
      · simp [hc, hv, GaugeVec.withLabelValuesSet, gaugeOf, diagnostic]
      · simp [hc, hv, GaugeVec.withLabelValuesSet]
    · by_cases hv : validUTF8 h.Name = true
      · simp [hc, hv, GaugeVec.withLabelValuesSet, gaugeOf, diagnostic, failureDetail,
          ProcState.emit]
      · simp [hc, hv, GaugeVec.withLabelValuesSet]

theorem afterCheck_hostUp_same (g : GoString → GetResult) (h : Host) (s : ProcState) :
    (afterCheck g h s).hostUp h.Name = some (gaugeOf (g h.Url)) := by
  simp [afterCheck]

theorem afterCheck_hostUp_other (g : GoString → GetResult) (h : Host) (s : ProcState)
    (n : GoString) (hn : n ≠ h.Name) : (afterCheck g h s).hostUp n = s.hostUp n := by
  simp [afterCheck, hn]

/-! ## Effect of the inner loop on the state -/

/-- When every name is valid UTF-8 the inner loop completes, in `afterChecks`. -/
theorem pollHosts_of_valid (g : Nat → GoString → GetResult) (hs : List Host) :
    ∀ (i : Nat) (s : ProcState), (∀ h ∈ hs, validUTF8 h.Name = true) →
      pollHosts g i hs s = CycleResult.completed (afterChecks g i hs s) := by
  induction hs with
  | nil => intro i s _; rfl
  | cons h rest ih =>
    intro i s hv
    have h0 : validUTF8 h.Name = true := hv h (List.mem_cons_self h rest)
    have hr : ∀ x ∈ rest, validUTF8 x.Name = true :=
      fun x hx => hv x (List.mem_cons_of_mem h hx)
    simp only [pollHosts, afterChecks, pollHost_eq, h0, if_true]
    exact ih (i + 1) _ hr

/-- The inner loop completes only when every name is valid UTF-8, and then in
`afterChecks`. -/
theorem pollHosts_completed (g : Nat → GoString → GetResult) (hs : List Host) :
    ∀ (i : Nat) (s s1 : ProcState), pollHosts g i hs s = CycleResult.completed s1 →
      (∀ h ∈ hs, validUTF8 h.Name = true) ∧ s1 = afterChecks g i hs s := by
  induction hs with
  | nil =>
    intro i s s1 h
    simp only [pollHosts, CycleResult.completed.injEq] at h
    exact ⟨fun x hx => by simp at hx, h.symm⟩
  | cons h rest ih =>
    intro i s s1 hd
    simp only [pollHosts, pollHost_eq] at hd
    by_cases h0 : validUTF8 h.Name = true
    · simp only [h0, if_true] at hd
      obtain ⟨hr, he⟩ := ih (i + 1) _ s1 hd
      refine ⟨?_, he⟩
      intro x hx
      rcases List.mem_cons.mp hx with e | e
      · subst e
        exact h0
      · exact hr x e
    · simp only [h0] at hd
      cases hd

/-- A name that is not valid UTF-8 makes the inner loop panic. -/
theorem pollHosts_panicked (g : Nat → GoString → GetResult) (hs : List Host)
    (i : Nat) (s : ProcState) (hbad : ∃ h ∈ hs, validUTF8 h.Name = false) :
    ∃ s1, pollHosts g i hs s = CycleResult.panicked s1 := by
  cases hp : pollHosts g i hs s with
  | panicked s1 => exact ⟨s1, rfl⟩
  | completed s1 =>
    obtain ⟨h, hh, hv⟩ := hbad
    have := (pollHosts_completed g hs i s s1 hp).1 h hh
    rw [hv] at this
    cases this

theorem afterChecks_requests (g : Nat → GoString → GetResult) (hs : List Host) :
    ∀ (i : Nat) (s : ProcState),
      (afterChecks g i hs s).requests = s.requests ++ hs.map Host.Url := by
  induction hs with
  | nil => intro i s; simp [afterChecks]
  | cons h rest ih =>
    intro i s
    simp [afterChecks, ih, afterCheck]

theorem afterChecks_sleeps (g : Nat → GoString → GetResult) (hs : List Host) :
    ∀ (i : Nat) (s : ProcState), (afterChecks g i hs s).sleeps = s.sleeps := by
  induction hs with
  | nil => intro i s; simp [afterChecks]
  | cons h rest ih =>
    intro i s
    simp [afterChecks, ih, afterCheck]

theorem afterChecks_log (g : Nat → GoString → GetResult) (hs : List Host) :
    ∀ (i : Nat) (s : ProcState),
      (afterChecks g i hs s).log
        = s.log ++ (hs.enumFrom i).filterMap (fun p => diagnostic p.2 (g p.1 p.2.Url)) := by
  induction hs with
  | nil => intro i s; simp [afterChecks]
  | cons h rest ih =>
    intro i s
    simp only [afterChecks, List.enumFrom_cons]
    rw [ih (i + 1)]
    cases hd : diagnostic h (g i h.Url) <;> simp [List.filterMap_cons, hd, afterCheck]

/-- A name carried by none of the hosts keeps its gauge. -/
theorem afterChecks_hostUp_frame (g : Nat → GoString → GetResult) (n : GoString)
    (hs : List Host) :
    ∀ (i : Nat) (s : ProcState), (∀ h ∈ hs, h.Name ≠ n) →
      (afterChecks g i hs s).hostUp n = s.hostUp n := by
  induction hs with
  | nil => intro i s _; simp [afterChecks]
  | cons h rest ih =>
    intro i s hn
    have h0 : n ≠ h.Name := fun e => hn h (List.mem_cons_self h rest) e.symm
    have hr : ∀ x ∈ rest, x.Name ≠ n := fun x hx => hn x (List.mem_cons_of_mem h hx)
    simp only [afterChecks]
    rw [ih (i + 1) _ hr, afterCheck_hostUp_other (g i) h s n h0]

/-- The gauge under the name of the `j`-th remaining host, when no later host
carries that name, is the value of that host's check. -/
theorem afterChecks_hostUp_last (g : Nat → GoString → GetResult) (hs : List Host) :
    ∀ (i : Nat) (s : ProcState) (j : Nat) (host : Host), hs[j]? = some host →
      (∀ (k : Nat) (other : Host), j < k → hs[k]? = some other → other.Name ≠ host.Name) →
      (afterChecks g i hs s).hostUp host.Name = some (gaugeOf (g (i + j) host.Url)) := by
  induction hs with
  | nil => intro i s j host hj; simp at hj
  | cons h rest ih =>
    intro i s j host hj hlast
    simp only [afterChecks]
    cases j with
    | zero =>
      simp only [List.getElem?_cons_zero, Option.some.injEq] at hj
      subst hj
      have hr : ∀ x ∈ rest, x.Name ≠ h.Name := by
        intro x hx
        obtain ⟨k, hk⟩ := List.getElem?_of_mem hx
        exact hlast (k + 1) x (Nat.succ_pos k) (by simpa using hk)
      rw [afterChecks_hostUp_frame g h.Name rest (i + 1) _ hr, afterCheck_hostUp_same]
      simp
    | succ j =>
      simp only [List.getElem?_cons_succ] at hj
      have hl : ∀ (k : Nat) (other : Host), j < k → rest[k]? = some other →
          other.Name ≠ host.Name := by
        intro k other hjk hk
        exact hlast (k + 1) other (Nat.succ_lt_succ hjk) (by simpa using hk)
      rw [ih (i + 1) _ j host hj hl]
      congr 3
      omega

/-- The gauge under a name after the inner loop depends only on the gauge
before and on the checks of the hosts carrying that name. -/
theorem afterChecks_hostUp_congr (g1 g2 : Nat → GoString → GetResult) (n : GoString)
    (hs : List Host) :
    ∀ (i : Nat) (s1 s2 : ProcState), s1.hostUp n = s2.hostUp n →
      (∀ (k : Nat) (host : Host), hs[k]? = some host → host.Name = n →
        g1 (i + k) host.Url = g2 (i + k) host.Url) →
      (afterChecks g1 i hs s1).hostUp n = (afterChecks g2 i hs s2).hostUp n := by
  induction hs with
  | nil => intro i s1 s2 h0 _; simpa [afterChecks] using h0
  | cons h rest ih =>
    intro i s1 s2 h0 hg
    simp only [afterChecks]
    apply ih (i + 1)
    · by_cases hn : n = h.Name
      · subst hn
        rw [afterCheck_hostUp_same, afterCheck_hostUp_same]
        have := hg 0 h (by simp) rfl
        simp only [Nat.add_zero] at this
        rw [this]
      · rw [afterCheck_hostUp_other _ _ _ _ hn, afterCheck_hostUp_other _ _ _ _ hn, h0]
    · intro k host hk hname
      have := hg (k + 1) host (by simpa using hk) hname
      have e : i + (k + 1) = i + 1 + k := by omega
      rw [e] at this
      exact this

/-- A gauge that exists before the inner loop exists after it. -/
theorem afterChecks_hostUp_present (g : Nat → GoString → GetResult) (n : GoString)
    (hs : List Host) :
    ∀ (i : Nat) (s : ProcState), s.hostUp n ≠ none →
      (afterChecks g i hs s).hostUp n ≠ none := by
  induction hs with
  | nil => intro i s h0; simpa [afterChecks] using h0
  | cons h rest ih =>
    intro i s h0
    simp only [afterChecks]
    apply ih (i + 1)
    by_cases hn : n = h.Name
    · subst hn
      rw [afterCheck_hostUp_same]
      simp
    · rw [afterCheck_hostUp_other _ _ _ _ hn]
      exact h0

/-- The inner loop creates a gauge under the name of every host. -/
theorem afterChecks_hostUp_created (g : Nat → GoString → GetResult) (n : GoString)
    (hs : List Host) :
    ∀ (i : Nat) (s : ProcState), (∃ h ∈ hs, h.Name = n) →
      (afterChecks g i hs s).hostUp n ≠ none := by
  induction hs with
  | nil => intro i s h0; simp at h0
  | cons h rest ih =>
    intro i s h0
    simp only [afterChecks]
    by_cases hn : h.Name = n
    · apply afterChecks_hostUp_present
      subst hn
      rw [afterCheck_hostUp_same]
      simp
    · apply ih (i + 1)
      obtain ⟨x, hx, hxn⟩ := h0
      rcases List.mem_cons.mp hx with e | e
      · subst e
        exact absurd hxn hn
      · exact ⟨x, e, hxn⟩

/-! ## One poll cycle and the loop -/

/-- A completed cycle: every name is valid UTF-8 and the state is that of
`afterChecks` with the sleep added. -/
theorem pollCycle_completed (frequency diff : Int) (g : Nat → GoString → GetResult)
    (config : Config) (s s1 : ProcState)
    (hd : pollCycle frequency g diff config s = CycleResult.completed s1) :
    (∀ h ∈ config.Hosts, validUTF8 h.Name = true)
    ∧ s1.hostUp = (afterChecks g 0 config.Hosts s).hostUp
    ∧ s1.log = (afterChecks g 0 config.Hosts s).log
    ∧ s1.requests = s.requests ++ config.Hosts.map Host.Url
    ∧ s1.sleeps = s.sleeps ++ [wrapInt64 (frequency - diff)] := by
  unfold pollCycle at hd
  cases hp : pollHosts g 0 config.Hosts s with
  | panicked s2 =>
    rw [hp] at hd
    cases hd
  | completed s2 =>
    rw [hp] at hd
    simp only [CycleResult.completed.injEq] at hd
    obtain ⟨hv, he⟩ := pollHosts_completed g config.Hosts 0 s s2 hp
    subst he
    subst hd
    exact ⟨hv, rfl, rfl, afterChecks_requests g config.Hosts 0 s,
      by simp [afterChecks_sleeps]⟩

/-- With valid names a cycle completes. -/
theorem pollCycle_of_valid (frequency diff : Int) (g : Nat → GoString → GetResult)
    (config : Config) (s : ProcState)
    (hv : ∀ h ∈ config.Hosts, validUTF8 h.Name = true) :
    ∃ s1, pollCycle frequency g diff config s = CycleResult.completed s1 := by
  unfold pollCycle
  rw [pollHosts_of_valid g config.Hosts 0 s hv]
  exact ⟨_, rfl⟩

/-- A name that is not valid UTF-8 makes the cycle panic. -/
theorem pollCycle_panicked (frequency diff : Int) (g : Nat → GoString → GetResult)
    (config : Config) (s : ProcState)
    (hbad : ∃ h ∈ config.Hosts, validUTF8 h.Name = false) :
    ∃ s1, pollCycle frequency g diff config s = CycleResult.panicked s1 := by
  obtain ⟨s1, h1⟩ := pollHosts_panicked g config.Hosts 0 s hbad
  exact ⟨s1, by simp [pollCycle, h1]⟩

/-- With valid names the loop completes any number of iterations, each one
pass over the hosts and one sleep. -/
theorem loopCycles_of_valid (frequency : Int) (config : Config) (w : World) (s : ProcState)
    (hv : ∀ h ∈ config.Hosts, validUTF8 h.Name = true) :
    ∀ n : Nat, ∃ sn, loopCycles frequency config w n s = CycleResult.completed sn
      ∧ sn.requests = s.requests ++ (List.replicate n (config.Hosts.map Host.Url)).flatten
      ∧ sn.sleeps.length = s.sleeps.length + n := by
  intro n
  induction n with
  | zero => exact ⟨s, rfl, by simp, by simp⟩
  | succ n ih =>
    obtain ⟨sn, hn, hreq, hsl⟩ := ih
    obtain ⟨s1, h1⟩ := pollCycle_of_valid frequency (w.elapsed n) (w.httpGet n) config sn hv
    obtain ⟨_, _, _, hr1, hs1⟩ := pollCycle_completed _ _ _ _ _ _ h1
    refine ⟨s1, by simp only [loopCycles, hn, h1], ?_, ?_⟩
    · rw [hr1, hreq, List.replicate_succ', List.flatten_append]
      simp
    · rw [hs1, List.length_append, hsl]
      simp
      omega

/-- One more iteration of a loop that completes is one cycle from the state
the iterations before it reached. -/
theorem loopCycles_succ_completed (frequency : Int) (config : Config) (w : World)
    (s sn1 : ProcState) (n : Nat)
    (h1 : loopCycles frequency config w (n + 1) s = CycleResult.completed sn1) :
    ∃ sn, loopCycles frequency config w n s = CycleResult.completed sn
      ∧ pollCycle frequency (w.httpGet n) (w.elapsed n) config sn
          = CycleResult.completed sn1 := by
  simp only [loopCycles] at h1
  cases hn : loopCycles frequency config w n s with
  | panicked s2 =>
    rw [hn] at h1
    cases h1
  | completed sn =>
    rw [hn] at h1
    exact ⟨sn, rfl, h1⟩

theorem wrapInt64_of_range (x : Int) (hlo : -2 ^ 63 ≤ x) (hhi : x < 2 ^ 63) :
    wrapInt64 x = x := by
  unfold wrapInt64
  have h1 : (0 : Int) ≤ x + 2 ^ 63 := by omega
  have h2 : x + 2 ^ 63 < 2 ^ 64 := by omega
  rw [Int.emod_eq_of_lt h1 h2]
  omega

/-- The stored value, read off the error `ping` returns. -/
theorem gaugeOf_eq_of_ping (h : Host) (g : GoString → GetResult) (s0 : ProcState) :
    gaugeOf (g h.Url) = if (h.ping g s0).1 = none then 1 else 0 := by
  have h1 := ping_fst_isNone h g s0
  by_cases hr : g h.Url = GetResult.response 200
  · simp only [hr, decide_True, Option.isNone_iff_eq_none] at h1
    simp [gaugeOf, hr, h1]
  · simp only [hr, decide_False] at h1
    have h2 : (h.ping g s0).1 ≠ none := by
      intro e
      rw [e] at h1
      simp at h1
    simp [gaugeOf, hr, h2]

/-- With pairwise distinct names, no later host carries the name of an earlier one. -/
theorem name_ne_of_nodup (hs : List Host) (hnodup : (hs.map Host.Name).Nodup)
    (i k : Nat) (a b : Host) (hi : hs[i]? = some a) (hk : hs[k]? = some b) (hik : i < k) :
    b.Name ≠ a.Name := by
  intro e
  have hlen : i < (hs.map Host.Name).length := by
    have := (List.getElem?_eq_some.mp hi).1
    simpa using this
  have h1 : (hs.map Host.Name)[i]? = (hs.map Host.Name)[k]? := by
    simp [List.getElem?_map, hi, hk, e]
  have := List.getElem?_inj hlen hnodup h1
  omega

theorem warnMessage_contains (host : Host) (isUp : Bool) (err : GoString) :
    host.Name <:+: warnMessage host isUp err
    ∧ host.Url <:+: warnMessage host isUp err
    ∧ err <:+: warnMessage host isUp err := by
  unfold warnMessage
  refine ⟨⟨goString "ping: name=",
      goString " url=" ++ host.Url ++ goString " isUp=" ++ fmtBool isUp ++ goString " err="
        ++ err, ?_⟩,
    ⟨goString "ping: name=" ++ host.Name ++ goString " url=",
      goString " isUp=" ++ fmtBool isUp ++ goString " err=" ++ err, ?_⟩,
    ⟨goString "ping: name=" ++ host.Name ++ goString " url=" ++ host.Url ++ goString " isUp="
        ++ fmtBool isUp ++ goString " err=", [], ?_⟩⟩
  · simp only [List.append_assoc]
  · simp only [List.append_assoc]
  · simp only [List.append_assoc, List.append_nil]

theorem checkHosts_eq_none_iff (parseRequestURI : GoString → Except GoString Unit)
    (hs : List Host) :
    checkHosts parseRequestURI hs = none
      ↔ ∀ h ∈ hs, parseRequestURI h.Url = Except.ok () := by
  induction hs with
  | nil => simp [checkHosts]
  | cons h rest ih =>
    simp only [checkHosts, List.mem_cons, forall_eq_or_imp]
    cases hp : parseRequestURI h.Url with
    | error err => simp
    | ok u => simp [ih]

theorem twiceConfig_last (k : Nat) (other : Host) (hk : 1 < k)
    (h : twiceConfig.Hosts[k]? = some other) : other.Name ≠ goString "x" := by
  match k, hk with
  | k + 2, _ => simp [twiceConfig] at h

/-! ## Host.ping: classification -/

/-- C1: for every answer of `http.Get`, `ping` returns `nil` exactly when the
answer is a response whose status code is 200; every transport error and every
other status code gives a non-nil error. -/
theorem ping_nil_iff_response_200 (h : Host) (httpGet : GoString → GetResult)
    (s : ProcState) :
    (h.ping httpGet s).1 = none ↔ httpGet h.Url = GetResult.response 200 := by
  unfold Host.ping
  cases hr : httpGet h.Url with
  | transportError msg => simp
  | response code =>
    by_cases hc : code = 200
    · simp [hc]
    · simp [hc]

/-! ## One poll cycle: the gauge vector -/

/-- C2: when the names of the configured hosts are pairwise distinct, after one
poll cycle the gauge under the name of the `i`-th host is `1` when `ping`
returned `nil` for that host's check of this cycle and `0` otherwise, whatever
the state held before; and the cycle does complete when the names are valid
UTF-8. -/
theorem pollCycle_gauge_of_distinct_names (frequency diff : Int)
    (httpGet : Nat → GoString → GetResult) (config : Config) (s s0 : ProcState)
    (hnodup : (config.Hosts.map Host.Name).Nodup)
    (i : Nat) (host : Host) (hi : config.Hosts[i]? = some host) :
    (∀ s1, pollCycle frequency httpGet diff config s = CycleResult.completed s1 →
        s1.hostUp host.Name
          = some (if (host.ping (httpGet i) s0).1 = none then 1 else 0))
    ∧ ((∀ h ∈ config.Hosts, validUTF8 h.Name = true) →
        ∃ s1, pollCycle frequency httpGet diff config s = CycleResult.completed s1) := by
  refine ⟨?_, pollCycle_of_valid frequency diff httpGet config s⟩
  intro s1 hd
  obtain ⟨_, hu, _, _, _⟩ := pollCycle_completed frequency diff httpGet config s s1 hd
  rw [hu, ← gaugeOf_eq_of_ping host (httpGet i) s0]
  have hlast : ∀ (k : Nat) (other : Host), i < k → config.Hosts[k]? = some other →
      other.Name ≠ host.Name :=
    fun k other hik hk => name_ne_of_nodup config.Hosts hnodup i k host other hi hk hik
  have := afterChecks_hostUp_last httpGet config.Hosts 0 s i host hi hlast
  simpa using this

/-- C3: two runs of one poll cycle from the same state whose checks differ only
at the `i`-th host `t` leave the same gauge under every name other than the
name of `t` (the names need not be distinct for this); and both runs do
complete when the names are valid UTF-8. -/
theorem pollCycle_independent_of_other_checks (frequency diff : Int)
    (g1 g2 : Nat → GoString → GetResult) (config : Config) (s : ProcState)
    (i : Nat) (t : Host) (hi : config.Hosts[i]? = some t)
    (hagree : ∀ (k : Nat) (url : GoString), k ≠ i → g1 k url = g2 k url)
    (n : GoString) (hn : n ≠ t.Name) :
    (∀ s1 s2, pollCycle frequency g1 diff config s = CycleResult.completed s1 →
        pollCycle frequency g2 diff config s = CycleResult.completed s2 →
        s1.hostUp n = s2.hostUp n)
    ∧ ((∀ h ∈ config.Hosts, validUTF8 h.Name = true) →
        (∃ s1, pollCycle frequency g1 diff config s = CycleResult.completed s1)
        ∧ ∃ s2, pollCycle frequency g2 diff config s = CycleResult.completed s2) := by
  refine ⟨?_, fun hv => ⟨pollCycle_of_valid frequency diff g1 config s hv,
    pollCycle_of_valid frequency diff g2 config s hv⟩⟩
  intro s1 s2 hd1 hd2
  obtain ⟨_, hu1, _, _, _⟩ := pollCycle_completed frequency diff g1 config s s1 hd1
  obtain ⟨_, hu2, _, _, _⟩ := pollCycle_completed frequency diff g2 config s s2 hd2
  rw [hu1, hu2]
  apply afterChecks_hostUp_congr g1 g2 n config.Hosts 0 s s rfl
  intro k host hk hname
  have hki : k ≠ i := by
    intro e
    subst e
    rw [hi] at hk
    cases hk
    exact hn hname.symm
  simpa using hagree k host.Url hki

/-- C6: a poll cycle removes no gauge, leaves the gauge under every name that
no configured host carries as it was, and from the empty state creates gauges
under exactly the names of the configured hosts; and the cycle does complete
when the names are valid UTF-8. -/
theorem pollCycle_keeps_entries (frequency diff : Int)
    (httpGet : Nat → GoString → GetResult) (config : Config) (s : ProcState) :
    (∀ s1, pollCycle frequency httpGet diff config s = CycleResult.completed s1 →
        ∀ n : GoString, s.hostUp n ≠ none → s1.hostUp n ≠ none)
    ∧ (∀ s1, pollCycle frequency httpGet diff config s = CycleResult.completed s1 →
        ∀ n : GoString, (∀ h ∈ config.Hosts, h.Name ≠ n) → s1.hostUp n = s.hostUp n)
    ∧ (∀ s1,
        pollCycle frequency httpGet diff config ProcState.init = CycleResult.completed s1 →
        ∀ n : GoString, s1.hostUp n ≠ none ↔ ∃ h ∈ config.Hosts, h.Name = n)
    ∧ ((∀ h ∈ config.Hosts, validUTF8 h.Name = true) →
        ∃ s1, pollCycle frequency httpGet diff config s = CycleResult.completed s1) := by
  refine ⟨?_, ?_, ?_, pollCycle_of_valid frequency diff httpGet config s⟩
  · intro s1 hd n hn
    obtain ⟨_, hu, _, _, _⟩ := pollCycle_completed frequency diff httpGet config s s1 hd
    rw [hu]
    exact afterChecks_hostUp_present httpGet n config.Hosts 0 s hn
  · intro s1 hd n hn
    obtain ⟨_, hu, _, _, _⟩ := pollCycle_completed frequency diff httpGet config s s1 hd
    rw [hu]
    exact afterChecks_hostUp_frame httpGet n config.Hosts 0 s hn
  · intro s1 hd n
    obtain ⟨_, hu, _, _, _⟩ :=
      pollCycle_completed frequency diff httpGet config ProcState.init s1 hd
    rw [hu]
    constructor
    · intro hpres
      by_contra hno
      have hall : ∀ h ∈ config.Hosts, h.Name ≠ n := by
        intro h hh e
        exact hno ⟨h, hh, e⟩
      rw [afterChecks_hostUp_frame httpGet n config.Hosts 0 ProcState.init hall] at hpres
      exact hpres rfl
    · intro hex
      exact afterChecks_hostUp_created httpGet n config.Hosts 0 ProcState.init hex

/-- C10: names may repeat; after one poll cycle the gauge under the name of a
host that no later host shares is `1` when `ping` returned `nil` for that
host's check and `0` otherwise, whatever the checks of earlier hosts of the
same name gave and whatever the state held before; and the cycle does complete
when the names are valid UTF-8. -/
theorem pollCycle_duplicate_names_last_wins (frequency diff : Int)
    (httpGet : Nat → GoString → GetResult) (config : Config) (s s0 : ProcState)
    (i : Nat) (host : Host) (hi : config.Hosts[i]? = some host)
    (hlast : ∀ (k : Nat) (other : Host), i < k → config.Hosts[k]? = some other →
      other.Name ≠ host.Name) :
    (∀ s1, pollCycle frequency httpGet diff config s = CycleResult.completed s1 →
        s1.hostUp host.Name
          = some (if (host.ping (httpGet i) s0).1 = none then 1 else 0))
    ∧ ((∀ h ∈ config.Hosts, validUTF8 h.Name = true) →
        ∃ s1, pollCycle frequency httpGet diff config s = CycleResult.completed s1) := by
  refine ⟨?_, pollCycle_of_valid frequency diff httpGet config s⟩
  intro s1 hd
  obtain ⟨_, hu, _, _, _⟩ := pollCycle_completed frequency diff httpGet config s s1 hd
  rw [hu, ← gaugeOf_eq_of_ping host (httpGet i) s0]
  have := afterChecks_hostUp_last httpGet config.Hosts 0 s i host hi hlast
  simpa using this

/-! ## One poll cycle: the requests -/

/-- C5, as stated, fails: the first host of `badNameConfig` has a name that is
not valid UTF-8, `WithLabelValues` panics on it, and the cycle ends after one
GET with the second host never checked. -/
theorem pollCycle_panics_on_invalid_name :
    validUTF8 [0xFF] = false
    ∧ ∃ s1, pollCycle 1000000000 recoveredGet 5 badNameConfig ProcState.init
          = CycleResult.panicked s1
        ∧ s1.requests = [goString "http://ok.test"]
        ∧ s1.requests ≠ badNameConfig.Hosts.map Host.Url :=
  ⟨by decide, _, rfl, rfl, by decide⟩

/-- C5, amended: for a config whose host names are all valid UTF-8, one poll
cycle completes and issues one GET per configured host, in the order of the
list and to the end of the list, whatever the checks answer; and any number of
iterations of the loop complete, the requests issued being that many passes
over the list. -/
theorem pollCycle_checks_every_host_in_order (frequency diff : Int)
    (httpGet : Nat → GoString → GetResult) (config : Config) (w : World) (s : ProcState)
    (n : Nat) (hvalid : ∀ h ∈ config.Hosts, validUTF8 h.Name = true) :
    (∃ s1, pollCycle frequency httpGet diff config s = CycleResult.completed s1
        ∧ s1.requests = s.requests ++ config.Hosts.map Host.Url)
    ∧ (∃ sn, loopCycles frequency config w n s = CycleResult.completed sn
        ∧ sn.requests
            = s.requests ++ (List.replicate n (config.Hosts.map Host.Url)).flatten) := by
  constructor
  · obtain ⟨s1, h1⟩ := pollCycle_of_valid frequency diff httpGet config s hvalid
    obtain ⟨_, _, _, hr, _⟩ := pollCycle_completed frequency diff httpGet config s s1 h1
    exact ⟨s1, h1, hr⟩
  · obtain ⟨sn, hn, hr, _⟩ := loopCycles_of_valid frequency config w s hvalid n
    exact ⟨sn, hn, hr⟩

/-- C5 at the scenario: the cycle completes with the two urls requested in
order, and three iterations request them three times. -/
theorem pollCycle_checks_every_host_in_order_witness :
    (∀ h ∈ scenarioConfig.Hosts, validUTF8 h.Name = true)
    ∧ (∃ s1, pollCycle 1000000000 scenarioGet 5 scenarioConfig ProcState.init
          = CycleResult.completed s1
        ∧ s1.requests = ProcState.init.requests ++ scenarioConfig.Hosts.map Host.Url)
    ∧ (∃ sn, loopCycles 1000000000 scenarioConfig
          (World.mk (fun _ => scenarioGet) (fun _ => 5)) 3 ProcState.init
            = CycleResult.completed sn
        ∧ sn.requests = ProcState.init.requests
            ++ (List.replicate 3 (scenarioConfig.Hosts.map Host.Url)).flatten) :=
  ⟨by decide,
   pollCycle_checks_every_host_in_order 1000000000 5 scenarioGet scenarioConfig
     (World.mk (fun _ => scenarioGet) (fun _ => 5)) ProcState.init 3 (by decide)⟩

/-! ## The sleep between cycles -/

/-- C4, as stated, fails: with frequency `-(2^63 - 1)` ns and a measured
duration of 2 ns the `int64` subtraction wraps, the duration passed to
`time.Sleep` is `2^63 - 1` and not `frequency - diff`, and the delay is not
zero although the cycle took longer than the frequency. -/
theorem pollCycle_sleep_wraps :
    (∃ s1, pollCycle (-(2 ^ 63 - 1)) recoveredGet 2 NewConfig ProcState.init
          = CycleResult.completed s1
        ∧ s1.sleeps = [2 ^ 63 - 1])
    ∧ (2 ^ 63 - 1 : Int) ≠ -(2 ^ 63 - 1) - 2
    ∧ (-(2 ^ 63 - 1) : Int) ≤ 2
    ∧ sleepDelay (2 ^ 63 - 1) ≠ max 0 (-(2 ^ 63 - 1) - 2) :=
  ⟨⟨_, rfl, by decide⟩, by decide, by decide, by decide⟩

/-- C4, amended: when `frequency - diff` fits an `int64`, the duration one
cycle passes to `time.Sleep` is `frequency - diff`, the delay is that value
clamped at zero (zero whenever the cycle took at least `frequency`), and the
next iteration of the loop is one more pass over the hosts followed by one
more sleep; the cycle and the iterations do complete when the names are valid
UTF-8. -/
theorem pollCycle_sleep_duration (frequency diff : Int)
    (httpGet : Nat → GoString → GetResult) (config : Config) (w : World) (s : ProcState)
    (n : Nat) (hlo : -2 ^ 63 ≤ frequency - diff) (hhi : frequency - diff < 2 ^ 63) :
    (∀ s1, pollCycle frequency httpGet diff config s = CycleResult.completed s1 →
        s1.sleeps = s.sleeps ++ [frequency - diff])
    ∧ sleepDelay (frequency - diff) = max 0 (frequency - diff)
    ∧ (frequency ≤ diff → sleepDelay (frequency - diff) = 0)
    ∧ (∀ sn1, loopCycles frequency config w (n + 1) s = CycleResult.completed sn1 →
        ∃ sn, loopCycles frequency config w n s = CycleResult.completed sn
          ∧ sn1.requests = sn.requests ++ config.Hosts.map Host.Url
          ∧ sn1.sleeps.length = sn.sleeps.length + 1)
    ∧ ((∀ h ∈ config.Hosts, validUTF8 h.Name = true) →
        (∃ s1, pollCycle frequency httpGet diff config s = CycleResult.completed s1)
        ∧ ∃ sn1, loopCycles frequency config w (n + 1) s = CycleResult.completed sn1) := by
  refine ⟨?_, ?_, ?_, ?_, ?_⟩
  · intro s1 hd
    obtain ⟨_, _, _, _, hs⟩ := pollCycle_completed frequency diff httpGet config s s1 hd
    rw [hs, wrapInt64_of_range _ hlo hhi]
  · unfold sleepDelay
    by_cases h : frequency - diff ≤ 0
    · simp [h]
    · simp only [h, if_false]
      omega
  · intro h
    unfold sleepDelay
    have : frequency - diff ≤ 0 := by omega
    simp [this]
  · intro sn1 h1
    obtain ⟨sn, hn, hc⟩ := loopCycles_succ_completed frequency config w s sn1 n h1
    obtain ⟨_, _, _, hr, hs⟩ := pollCycle_completed _ _ _ _ _ _ hc
    refine ⟨sn, hn, hr, ?_⟩
    rw [hs]
    simp
  · intro hv
    refine ⟨pollCycle_of_valid frequency diff httpGet config s hv, ?_⟩
    obtain ⟨sn1, h1, _⟩ := loopCycles_of_valid frequency config w s hv (n + 1)
    exact ⟨sn1, h1⟩

/-- C4 at an interval of 100ms and a cycle of 150ms: `-50ms` is passed to the
sleep and the delay is zero. -/
theorem pollCycle_sleep_duration_witness :
    (-2 ^ 63 : Int) ≤ 100000000 - 150000000
    ∧ (100000000 - 150000000 : Int) < 2 ^ 63
    ∧ (∃ s1, pollCycle 100000000 scenarioGet 150000000 scenarioConfig ProcState.init
          = CycleResult.completed s1
        ∧ s1.sleeps = ProcState.init.sleeps ++ [100000000 - 150000000])
    ∧ sleepDelay (100000000 - 150000000) = 0 := by
  have t := pollCycle_sleep_duration 100000000 150000000 scenarioGet scenarioConfig
    (World.mk (fun _ => scenarioGet) (fun _ => 150000000)) ProcState.init 0
    (by decide) (by decide)
  obtain ⟨s1, h1⟩ := (t.2.2.2.2 (by decide)).1
  exact ⟨by decide, by decide, ⟨s1, h1, t.1 s1 h1⟩, t.2.2.1 (by decide)⟩

/-! ## Exits of the process -/

/-- A name that is not valid UTF-8 makes the loop panic in its first iteration. -/
theorem loopCycles_panicked (frequency : Int) (config : Config) (w : World) (s : ProcState)
    (hbad : ∃ h ∈ config.Hosts, validUTF8 h.Name = false) :
    ∀ n : Nat, ∃ s1, loopCycles frequency config w (n + 1) s = CycleResult.panicked s1 := by
  intro n
  induction n with
  | zero =>
    obtain ⟨s1, h1⟩ := pollCycle_panicked frequency (w.elapsed 0) (w.httpGet 0) config s hbad
    exact ⟨s1, by simp only [loopCycles, h1]⟩
  | succ n ih =>
    obtain ⟨s1, h1⟩ := ih
    refine ⟨s1, ?_⟩
    show (match loopCycles frequency config w (n + 1) s with
      | CycleResult.completed s2 =>
        pollCycle frequency (w.httpGet (n + 1)) (w.elapsed (n + 1)) config s2
      | CycleResult.panicked s2 => CycleResult.panicked s2) = CycleResult.panicked s1
    rw [h1]

/-- C7, as stated, fails: the frequency `1s` of `badNameConfig` parses, yet the
process is ended inside the first cycle, after one GET, by the panic of
`WithLabelValues` on the name of the first host. -/
theorem pingLoop_panics_on_invalid_name :
    demoParseDuration badNameConfig.Frequency = Except.ok 1000000000
    ∧ validUTF8 [0xFF] = false
    ∧ ∃ s1, pingLoop demoParseDuration badNameConfig
          (World.mk (fun _ => recoveredGet) (fun _ => 5)) 1 ProcState.init
            = LoopResult.panicked s1
        ∧ s1.requests = [goString "http://ok.test"] :=
  ⟨rfl, by decide, _, rfl, rfl⟩

/-- C7, amended: `pingLoop` ends in the exit of `log.Fatalf` exactly when
`time.ParseDuration` rejects `config.Frequency`; that exit happens before the
first cycle (the same at every number of iterations, with the gauges, the
requests and the sleeps as they were).  When the frequency parses and every
host name is valid UTF-8, the loop is running after any number of iterations,
each of them one pass over the hosts and one sleep, whatever the checks
answer; when the frequency parses and some host name is not valid UTF-8, the
process is ended by a panic inside the first cycle. -/
theorem pingLoop_fatal_iff_bad_frequency (parseDuration : GoString → Except GoString Int)
    (config : Config) (w : World) (s : ProcState) (n : Nat) :
    ((∃ s1, pingLoop parseDuration config w n s = LoopResult.fatal s1)
        ↔ ∃ err, parseDuration config.Frequency = Except.error err)
    ∧ (∀ s1, pingLoop parseDuration config w n s = LoopResult.fatal s1 →
        s1.hostUp = s.hostUp ∧ s1.requests = s.requests ∧ s1.sleeps = s.sleeps
          ∧ pingLoop parseDuration config w 0 s = LoopResult.fatal s1)
    ∧ (∀ frequency, parseDuration config.Frequency = Except.ok frequency →
        (∀ h ∈ config.Hosts, validUTF8 h.Name = true) →
        ∃ s1, pingLoop parseDuration config w n s = LoopResult.running s1
          ∧ s1.requests
              = s.requests ++ (List.replicate n (config.Hosts.map Host.Url)).flatten
          ∧ s1.sleeps.length = s.sleeps.length + n)
    ∧ (∀ frequency, parseDuration config.Frequency = Except.ok frequency →
        (∃ h ∈ config.Hosts, validUTF8 h.Name = false) →
        ∃ s1, pingLoop parseDuration config w (n + 1) s = LoopResult.panicked s1) := by
  unfold pingLoop
  cases hp : parseDuration config.Frequency with
  | error err =>
    refine ⟨⟨fun _ => ⟨err, rfl⟩, fun _ => ⟨_, rfl⟩⟩, ?_, ?_, ?_⟩
    · intro s1 h1
      simp only [LoopResult.fatal.injEq] at h1
      subst h1
      simp [ProcState.emit]
    · intro frequency h
      cases h
    · intro frequency h
      cases h
  | ok frequency =>
    refine ⟨⟨?_, ?_⟩, ?_, ?_, ?_⟩
    · rintro ⟨s1, h1⟩
      simp only at h1
      cases hl : loopCycles frequency config w n
          (s.emit Level.info (goString "Pinging every " ++ config.Frequency)) with
      | completed s2 =>
        rw [hl] at h1
        cases h1
      | panicked s2 =>
        rw [hl] at h1
        cases h1
    · rintro ⟨err, h⟩
      cases h
    · intro s1 h1
      simp only at h1
      cases hl : loopCycles frequency config w n
          (s.emit Level.info (goString "Pinging every " ++ config.Frequency)) with
      | completed s2 =>
        rw [hl] at h1
        cases h1
      | panicked s2 =>
        rw [hl] at h1
        cases h1
    · intro f h hv
      cases h
      obtain ⟨sn, hn, hr, hs⟩ := loopCycles_of_valid frequency config w
        (s.emit Level.info (goString "Pinging every " ++ config.Frequency)) hv n
      exact ⟨sn, by simp only [hn], hr, hs⟩
    · intro f h hbad
      cases h
      obtain ⟨s1, h1⟩ := loopCycles_panicked frequency config w
        (s.emit Level.info (goString "Pinging every " ++ config.Frequency)) hbad n
      exact ⟨s1, by simp only [h1]⟩

/-- C7 at a frequency the parser rejects: the fatal exit, with no request
issued; and at one it accepts, with valid names: the loop is running after
three iterations, each host requested three times. -/
theorem pingLoop_fatal_iff_bad_frequency_witness :
    (∃ s1, pingLoop demoParseDuration (Config.mk 3000 (goString "soon") scenarioConfig.Hosts)
        (World.mk (fun _ => scenarioGet) (fun _ => 5)) 3 ProcState.init
          = LoopResult.fatal s1 ∧ s1.requests = [])
    ∧ (∃ s1, pingLoop demoParseDuration scenarioConfig
        (World.mk (fun _ => scenarioGet) (fun _ => 5)) 3 ProcState.init
          = LoopResult.running s1
        ∧ s1.requests = ProcState.init.requests
            ++ (List.replicate 3 (scenarioConfig.Hosts.map Host.Url)).flatten
        ∧ s1.sleeps.length = ProcState.init.sleeps.length + 3) := by
  have t := pingLoop_fatal_iff_bad_frequency demoParseDuration
    (Config.mk 3000 (goString "soon") scenarioConfig.Hosts)
    (World.mk (fun _ => scenarioGet) (fun _ => 5)) ProcState.init 3
  have u := pingLoop_fatal_iff_bad_frequency demoParseDuration scenarioConfig
    (World.mk (fun _ => scenarioGet) (fun _ => 5)) ProcState.init 3
  obtain ⟨s1, h1⟩ := t.1.mpr ⟨goString "time: invalid duration", rfl⟩
  exact ⟨⟨s1, h1, (t.2.1 s1 h1).2.1⟩, u.2.2.1 1000000000 rfl (by decide)⟩

/-- C8: for a file that is read and decoded without error, `readConfig`
returns only when `url.ParseRequestURI` accepts the url of every host, and then
returns the decoded config with a nil error; as soon as one host url is
rejected, wherever it stands in the list, `readConfig` ends in the fatal exit
and returns nothing. -/
theorem readConfig_rejects_invalid_url (readFile : GoString → Except GoString GoString)
    (yamlUnmarshal : GoString → Config → Config × Option GoString)
    (parseRequestURI : GoString → Except GoString Unit) (path dat : GoString)
    (config : Config)
    (hread : readFile path = Except.ok dat)
    (hyaml : yamlUnmarshal dat NewConfig = (config, none)) :
    (∀ c e, readConfig readFile yamlUnmarshal parseRequestURI path = ReadResult.returned c e →
        c = config ∧ e = none ∧ ∀ h ∈ config.Hosts, parseRequestURI h.Url = Except.ok ())
    ∧ ((∃ h ∈ config.Hosts, ∃ err, parseRequestURI h.Url = Except.error err) →
        ∃ msg, readConfig readFile yamlUnmarshal parseRequestURI path = ReadResult.fatal msg)
    ∧ ((∀ h ∈ config.Hosts, parseRequestURI h.Url = Except.ok ()) →
        readConfig readFile yamlUnmarshal parseRequestURI path
          = ReadResult.returned config none) := by
  have hrc : readConfig readFile yamlUnmarshal parseRequestURI path
      = match checkHosts parseRequestURI config.Hosts with
        | some msg => ReadResult.fatal msg
        | none => ReadResult.returned config none := by
    simp only [readConfig, hread, hyaml]
  rw [hrc]
  cases hc : checkHosts parseRequestURI config.Hosts with
  | none =>
    have hall := (checkHosts_eq_none_iff parseRequestURI config.Hosts).mp hc
    refine ⟨?_, ?_, ?_⟩
    · intro c e h
      simp only [ReadResult.returned.injEq] at h
      exact ⟨h.1.symm, h.2.symm, hall⟩
    · rintro ⟨h, hh, err, herr⟩
      rw [hall h hh] at herr
      cases herr
    · intro _
      rfl
  | some msg =>
    refine ⟨?_, ?_, ?_⟩
    · intro c e h
      cases h
    · intro _
      exact ⟨msg, rfl⟩
    · intro hall
      rw [(checkHosts_eq_none_iff parseRequestURI config.Hosts).mpr hall] at hc
      cases hc

/-- C8 at a config of two hosts whose second url is rejected. -/
theorem readConfig_rejects_invalid_url_witness :
    demoReadFile (goString "./config.yaml") = Except.ok (goString "hosts")
    ∧ demoUnmarshal (goString "hosts") NewConfig
        = (Config.mk 3000 (goString "1s")
            [Host.mk (goString "a") (goString "http://ok.test"),
             Host.mk (goString "b") (goString "not a url")], none)
    ∧ ∃ msg, readConfig demoReadFile demoUnmarshal demoParseRequestURI
        (goString "./config.yaml") = ReadResult.fatal msg :=
  ⟨rfl, rfl,
   (readConfig_rejects_invalid_url demoReadFile demoUnmarshal demoParseRequestURI
      (goString "./config.yaml") (goString "hosts")
      (Config.mk 3000 (goString "1s")
        [Host.mk (goString "a") (goString "http://ok.test"),
         Host.mk (goString "b") (goString "not a url")])
      rfl rfl).2.1
      ⟨Host.mk (goString "b") (goString "not a url"), by simp,
        goString "invalid URI for request", rfl⟩⟩

/-! ## Diagnostics -/

set_option maxRecDepth 100000 in
/-- C9, as stated, fails: for a host answering 503 the one record of the cycle
is the warning below, whose text does not contain the status 503; it is the
record a 404 leaves as well. -/
theorem pollCycle_diagnostic_omits_status :
    (∃ s1, pollCycle 1000000000 (fun _ _ => GetResult.response 503) 5 singleConfig
          ProcState.init = CycleResult.completed s1
        ∧ s1.log = [LogEntry.mk Level.warn (goString
            "ping: name=a url=http://a.test isUp=false err=response code was not '200'")]
        ∧ ∃ s2, pollCycle 1000000000 (fun _ _ => GetResult.response 404) 5 singleConfig
            ProcState.init = CycleResult.completed s2
          ∧ s2.log = s1.log)
    ∧ ¬ (goString "503" <:+: goString
          "ping: name=a url=http://a.test isUp=false err=response code was not '200'") :=
  ⟨⟨_, rfl, by decide, _, rfl, by decide⟩, by decide⟩

/-- C9, amended: the records one poll cycle adds to the log are, in the order
of the configured hosts, one warning for each host whose check did not return
`nil` and none for the others; each warning contains the name and the url of
the host and the failure detail, which is the message of the transport error
for a transport failure and the fixed text `response code was not '200'` for
a response with another status; and the cycle does complete when the names are
valid UTF-8. -/
theorem pollCycle_diagnostics (frequency diff : Int)
    (httpGet : Nat → GoString → GetResult) (config : Config) (s : ProcState) :
    (∀ s1, pollCycle frequency httpGet diff config s = CycleResult.completed s1 →
        s1.log = s.log ++ config.Hosts.enum.filterMap
            (fun p => diagnostic p.2 (httpGet p.1 p.2.Url)))
    ∧ (∀ (host : Host) (g : GoString → GetResult) (s0 : ProcState),
        diagnostic host (g host.Url) = none ↔ (host.ping g s0).1 = none)
    ∧ (∀ (host : Host) (r : GetResult), r ≠ GetResult.response 200 →
        ∃ e, diagnostic host r = some e ∧ e.level = Level.warn
          ∧ host.Name <:+: e.msg ∧ host.Url <:+: e.msg ∧ failureDetail r <:+: e.msg)
    ∧ (∀ msg : GoString, failureDetail (GetResult.transportError msg) = msg)
    ∧ (∀ code : Int,
        failureDetail (GetResult.response code) = goString "response code was not '200'")
    ∧ ((∀ h ∈ config.Hosts, validUTF8 h.Name = true) →
        ∃ s1, pollCycle frequency httpGet diff config s = CycleResult.completed s1) := by
  refine ⟨?_, ?_, ?_, fun _ => rfl, fun _ => rfl,
    pollCycle_of_valid frequency diff httpGet config s⟩
  · intro s1 hd
    obtain ⟨_, _, hl, _, _⟩ := pollCycle_completed frequency diff httpGet config s s1 hd
    rw [hl]
    exact afterChecks_log httpGet config.Hosts 0 s
  · intro host g s0
    have h1 := ping_fst_isNone host g s0
    by_cases hr : g host.Url = GetResult.response 200
    · simp only [hr, decide_True, Option.isNone_iff_eq_none] at h1
      simp [diagnostic, hr, h1]
    · simp only [hr, decide_False] at h1
      have h2 : (host.ping g s0).1 ≠ none := by
        intro e
        rw [e] at h1
        simp at h1
      simp [diagnostic, hr, h2]
  · intro host r hr
    refine ⟨LogEntry.mk Level.warn (warnMessage host false (failureDetail r)), ?_, rfl, ?_⟩
    · simp [diagnostic, hr]
    · exact warnMessage_contains host false (failureDetail r)

/-! ## Instances of the statements -/

/-- C2 at the scenario: `a` is 1 and `b` is 0 after one cycle, and `b` is 1
after a following cycle in which it answers 200. -/
theorem pollCycle_gauge_of_distinct_names_witness :
    (scenarioConfig.Hosts.map Host.Name).Nodup
    ∧ ∃ s1, pollCycle 1000000000 scenarioGet 5 scenarioConfig ProcState.init
          = CycleResult.completed s1
        ∧ s1.hostUp (goString "a") = some 1
        ∧ s1.hostUp (goString "b") = some 0
        ∧ ∃ s2, pollCycle 1000000000 recoveredGet 5 scenarioConfig s1
            = CycleResult.completed s2
          ∧ s2.hostUp (goString "b") = some 1 := by
  have ta := pollCycle_gauge_of_distinct_names 1000000000 5 scenarioGet scenarioConfig
    ProcState.init ProcState.init (by decide) 0
    (Host.mk (goString "a") (goString "http://ok.test")) rfl
  have tb := pollCycle_gauge_of_distinct_names 1000000000 5 scenarioGet scenarioConfig
    ProcState.init ProcState.init (by decide) 1
    (Host.mk (goString "b") (goString "http://down.test")) rfl
  obtain ⟨s1, h1⟩ := ta.2 (by decide)
  have tc := pollCycle_gauge_of_distinct_names 1000000000 5 recoveredGet scenarioConfig
    s1 ProcState.init (by decide) 1
    (Host.mk (goString "b") (goString "http://down.test")) rfl
  obtain ⟨s2, h2⟩ := tc.2 (by decide)
  exact ⟨by decide, s1, h1, (ta.1 s1 h1).trans (by decide), (tb.1 s1 h1).trans (by decide),
    s2, h2, (tc.1 s2 h2).trans (by decide)⟩

/-- C3 at the scenario: whether `b` fails or answers 200, `a` reads the same. -/
theorem pollCycle_independent_of_other_checks_witness :
    scenarioConfig.Hosts[1]? = some (Host.mk (goString "b") (goString "http://down.test"))
    ∧ (∀ (k : Nat) (url : GoString), k ≠ 1 → scenarioGet k url = flippedGet k url)
    ∧ goString "a" ≠ (Host.mk (goString "b") (goString "http://down.test")).Name
    ∧ scenarioGet 1 (goString "http://down.test") ≠ flippedGet 1 (goString "http://down.test")
    ∧ ∃ s1 s2, pollCycle 1000000000 scenarioGet 5 scenarioConfig ProcState.init
          = CycleResult.completed s1
        ∧ pollCycle 1000000000 flippedGet 5 scenarioConfig ProcState.init
          = CycleResult.completed s2
        ∧ s1.hostUp (goString "a") = s2.hostUp (goString "a") := by
  have t := pollCycle_independent_of_other_checks 1000000000 5 scenarioGet flippedGet
    scenarioConfig ProcState.init 1 (Host.mk (goString "b") (goString "http://down.test")) rfl
    (fun k url hk => by simp [flippedGet, hk]) (goString "a") (by decide)
  obtain ⟨⟨s1, h1⟩, ⟨s2, h2⟩⟩ := t.2 (by decide)
  exact ⟨rfl, fun k url hk => by simp [flippedGet, hk], by decide, by decide,
    s1, s2, h1, h2, t.1 s1 s2 h1 h2⟩

/-- C10 at two hosts named `x`: down then up leaves 1, up then down leaves 0. -/
theorem pollCycle_duplicate_names_last_wins_witness :
    twiceConfig.Hosts[1]? = some (Host.mk (goString "x") (goString "http://two.test"))
    ∧ (∃ s1, pollCycle 1000000000 secondUpGet 5 twiceConfig ProcState.init
          = CycleResult.completed s1
        ∧ s1.hostUp (goString "x") = some 1)
    ∧ (∃ s2, pollCycle 1000000000 firstUpGet 5 twiceConfig ProcState.init
          = CycleResult.completed s2
        ∧ s2.hostUp (goString "x") = some 0) := by
  have ta := pollCycle_duplicate_names_last_wins 1000000000 5 secondUpGet twiceConfig
    ProcState.init ProcState.init 1 (Host.mk (goString "x") (goString "http://two.test"))
    rfl twiceConfig_last
  have tb := pollCycle_duplicate_names_last_wins 1000000000 5 firstUpGet twiceConfig
    ProcState.init ProcState.init 1 (Host.mk (goString "x") (goString "http://two.test"))
    rfl twiceConfig_last
  obtain ⟨s1, h1⟩ := ta.2 (by decide)
  obtain ⟨s2, h2⟩ := tb.2 (by decide)
  exact ⟨rfl, ⟨s1, h1, (ta.1 s1 h1).trans (by decide)⟩,
    ⟨s2, h2, (tb.1 s2 h2).trans (by decide)⟩⟩

end Pingz
